import Mathlib

/-!
Verification of the finance-tracker repository (`tracker/`): a shallow
embedding in Lean 4 of the record store (`services/expense_tracker.py`),
the transaction value object (`services/transaction.py`), and the
aggregation / mutation views (`views.py`), together with theorems settling
the frozen claims about them.

Conventions of the embedding:
* CSV cells are Lean `String`s; reading/writing a CSV file preserves cell
  contents, so a stored file is a list of raw rows.
* Python `str.strip` / `str.lower` are modelled by `pyStrip` / `pyLower`
  (ASCII whitespace and ASCII letters, which covers the data the tracker
  normalizes).
* Python `float(...)` and `pandas.to_numeric` on decimal strings are
  modelled by `parseDec` (sign, digits, optional fraction part), with
  values in `Rat`; printing a float back into a CSV cell is `decPrint`.
* `pandas.to_datetime` on the date strings used by the tracker is modelled
  by `parseDate` (ISO `YYYY-MM-DD` / `YYYY-MM` forms, with calendar
  validity), and `strftime "%Y-%m"` by `fmtMonth`.
-/

namespace FinTrack

/-! ## Character and string utilities (models of Python str methods) -/

/-- ASCII whitespace, as stripped by Python `str.strip()` on the tracker's data. -/
def isWS (c : Char) : Bool :=
  c.toNat = 32 || c.toNat = 9 || c.toNat = 10 || c.toNat = 13

/-- Lower-case one character (ASCII), modelling Python `str.lower()` per char. -/
def charLower (c : Char) : Char :=
  if h : 65 ≤ c.toNat ∧ c.toNat ≤ 90 then Char.ofNatAux (c.toNat + 32) (Or.inl (by omega))
  else c

/-- Remove trailing characters satisfying `isWS`. -/
def stripEnd : List Char → List Char
  | [] => []
  | a :: t =>
    match stripEnd t with
    | [] => if isWS a then [] else [a]
    | b :: u => a :: b :: u

/-- Remove leading and trailing whitespace, modelling Python `str.strip()`. -/
def stripChars (l : List Char) : List Char :=
  stripEnd (l.dropWhile isWS)

/-- Python `str.strip()`. -/
def pyStrip (s : String) : String := String.mk (stripChars s.data)

/-- Python `str.lower()`. -/
def pyLower (s : String) : String := String.mk (s.data.map charLower)

theorem charLower_toNat_of_upper {c : Char} (h : 65 ≤ c.toNat ∧ c.toNat ≤ 90) :
    (charLower c).toNat = c.toNat + 32 := by
  simp only [charLower, h, dif_pos]
  rfl

theorem charLower_eq_self_of_not_upper {c : Char} (h : ¬(65 ≤ c.toNat ∧ c.toNat ≤ 90)) :
    charLower c = c := by
  simp only [charLower, h, dif_neg, not_false_iff]

theorem charLower_idem (c : Char) : charLower (charLower c) = charLower c := by
  by_cases h : 65 ≤ c.toNat ∧ c.toNat ≤ 90
  · have h1 := charLower_toNat_of_upper h
    have h2 : ¬(65 ≤ (charLower c).toNat ∧ (charLower c).toNat ≤ 90) := by
      intro hcon
      omega
    exact charLower_eq_self_of_not_upper h2
  · rw [charLower_eq_self_of_not_upper h, charLower_eq_self_of_not_upper h]

theorem isWS_charLower (c : Char) : isWS (charLower c) = isWS c := by
  by_cases h : 65 ≤ c.toNat ∧ c.toNat ≤ 90
  · have h1 := charLower_toNat_of_upper h
    have hl : isWS (charLower c) = false := by
      simp only [isWS, h1, Bool.or_eq_false_iff, decide_eq_false_iff_not]
      omega
    have hr : isWS c = false := by
      simp only [isWS, Bool.or_eq_false_iff, decide_eq_false_iff_not]
      omega
    rw [hl, hr]
  · rw [charLower_eq_self_of_not_upper h]

theorem dropWhile_map_charLower (l : List Char) :
    (l.map charLower).dropWhile isWS = (l.dropWhile isWS).map charLower := by
  induction l with
  | nil => rfl
  | cons a t ih =>
    by_cases h : isWS a
    · simp [List.dropWhile_cons, isWS_charLower, h, ih]
    · simp [List.dropWhile_cons, isWS_charLower, h]

theorem stripEnd_cons (a : Char) (t : List Char) :
    stripEnd (a :: t) = match stripEnd t with
      | [] => if isWS a then [] else [a]
      | b :: u => a :: b :: u := rfl

theorem stripEnd_map_charLower (l : List Char) :
    stripEnd (l.map charLower) = (stripEnd l).map charLower := by
  induction l with
  | nil => rfl
  | cons a t ih =>
    rw [List.map_cons, stripEnd_cons, stripEnd_cons, ih]
    cases h : stripEnd t with
    | nil =>
      simp only [List.map_nil, isWS_charLower]
      by_cases hw : isWS a <;> simp [hw]
    | cons b u => simp

theorem stripChars_map_charLower (l : List Char) :
    stripChars (l.map charLower) = (stripChars l).map charLower := by
  simp only [stripChars, dropWhile_map_charLower, stripEnd_map_charLower]

theorem stripEnd_idem (l : List Char) : stripEnd (stripEnd l) = stripEnd l := by
  induction l with
  | nil => rfl
  | cons a t ih =>
    cases h : stripEnd t with
    | nil =>
      by_cases hw : isWS a
      · have h1 : stripEnd (a :: t) = [] := by rw [stripEnd_cons, h]; simp [hw]
        rw [h1]
        rfl
      · have h1 : stripEnd (a :: t) = [a] := by rw [stripEnd_cons, h]; simp [hw]
        rw [h1, stripEnd_cons]
        simp [hw, stripEnd]
    | cons b u =>
      rw [h] at ih
      have h1 : stripEnd (a :: t) = a :: b :: u := by rw [stripEnd_cons, h]
      rw [h1, stripEnd_cons, ih]

theorem stripEnd_cons_shape (a : Char) (t : List Char) :
    stripEnd (a :: t) = [] ∨ ∃ u, stripEnd (a :: t) = a :: u := by
  rw [stripEnd_cons]
  cases h : stripEnd t with
  | nil =>
    by_cases hw : isWS a
    · simp [hw]
    · simp [hw]
  | cons b u => simp

theorem dropWhile_stripEnd_dropWhile (l : List Char) :
    (stripEnd (l.dropWhile isWS)).dropWhile isWS = stripEnd (l.dropWhile isWS) := by
  cases h : l.dropWhile isWS with
  | nil => simp [h, stripEnd]
  | cons a t =>
    have ha : isWS a = false := by
      have := List.head?_dropWhile_not isWS l
      rw [h] at this
      simpa using this
    rcases stripEnd_cons_shape a t with h2 | ⟨u, h2⟩
    · simp [h2]
    · simp [h2, List.dropWhile_cons, ha]

theorem stripChars_idem (l : List Char) : stripChars (stripChars l) = stripChars l := by
  simp only [stripChars, dropWhile_stripEnd_dropWhile, stripEnd_idem]

theorem pyStrip_pyLower_pyStrip (s : String) :
    pyStrip (pyLower (pyStrip s)) = pyLower (pyStrip s) := by
  simp only [pyStrip, pyLower, stripChars_map_charLower, stripChars_idem]

theorem pyLower_idem (s : String) : pyLower (pyLower s) = pyLower s := by
  simp only [pyLower, List.map_map]
  congr 1
  exact List.map_congr_left fun c _ => charLower_idem c

/-! ## Decimal numbers: model of Python `float(...)` / pandas `to_numeric`
on decimal literals, and of printing a float back into a CSV cell. -/

def digitChar (d : Nat) : Char := Char.ofNatAux (48 + d % 10) (Or.inl (by omega))

def digitVal (c : Char) : Nat := c.toNat - 48

def isDigitCh (c : Char) : Bool := 48 ≤ c.toNat && c.toNat ≤ 57

def natFromDigits (cs : List Char) : Nat := cs.foldl (fun a c => 10 * a + digitVal c) 0

def natPrintAux : Nat → Nat → List Char
  | 0, _ => []
  | fuel + 1, n => if n = 0 then [] else digitChar (n % 10) :: natPrintAux fuel (n / 10)

/-- The decimal digit string of a natural number. -/
def natPrintChars (n : Nat) : List Char := if n = 0 then ['0'] else (natPrintAux n n).reverse

/-- Parse an unsigned decimal literal: digits, optionally `.` and more digits.
Returns the mantissa and the number of fraction digits. -/
def parseUDec (l : List Char) : Option (Nat × Nat) :=
  if (l.takeWhile isDigitCh).isEmpty then none
  else
    match l.dropWhile isDigitCh with
    | [] => some (natFromDigits (l.takeWhile isDigitCh), 0)
    | c :: frac =>
      if c = '.' then
        if frac.isEmpty then none
        else if frac.all isDigitCh then
          some (natFromDigits (l.takeWhile isDigitCh) * 10 ^ frac.length + natFromDigits frac,
            frac.length)
        else none
      else none

def parseDecChars (cs : List Char) : Option (Int × Nat) :=
  match cs with
  | [] => none
  | c :: r =>
    if c = '-' then (parseUDec r).map (fun p => (-(p.1 : Int), p.2))
    else if c = '+' then (parseUDec r).map (fun p => ((p.1 : Int), p.2))
    else (parseUDec (c :: r)).map (fun p => ((p.1 : Int), p.2))

/-- Model of Python `float(s)` / pandas `to_numeric` on a decimal literal:
whitespace is stripped, then optional sign, digits, optional fraction part.
The parsed value `(m, e)` stands for `m / 10^e`. -/
def parseDec (s : String) : Option (Int × Nat) := parseDecChars (stripChars s.data)

/-- The rational value of a parsed decimal. -/
def ratOfDec (d : Int × Nat) : Rat := mkRat d.1 (10 ^ d.2)

def padLeft (e : Nat) (l : List Char) : List Char := List.replicate (e - l.length) '0' ++ l

/-- Print the float value `m / 10^e` into a CSV cell with `e` decimal places. -/
def decPrintChars (d : Int × Nat) : List Char :=
  (if d.1 < 0 then ['-'] else []) ++
    (if d.2 = 0 then natPrintChars d.1.natAbs
     else natPrintChars (d.1.natAbs / 10 ^ d.2) ++
       '.' :: padLeft d.2 (natPrintChars (d.1.natAbs % 10 ^ d.2)))

def decPrint (d : Int × Nat) : String := String.mk (decPrintChars d)

theorem digitChar_toNat (d : Nat) : (digitChar d).toNat = 48 + d % 10 := rfl

theorem digitVal_digitChar {d : Nat} (h : d < 10) : digitVal (digitChar d) = d := by
  simp [digitVal, digitChar_toNat, Nat.mod_eq_of_lt h]

theorem isDigitCh_digitChar (d : Nat) : isDigitCh (digitChar d) = true := by
  simp only [isDigitCh, digitChar_toNat, Bool.and_eq_true, decide_eq_true_eq]
  omega

theorem natPrintAux_eq_digits :
    ∀ fuel n, n ≤ fuel → natPrintAux fuel n = (Nat.digits 10 n).map digitChar := by
  intro fuel
  induction fuel with
  | zero =>
    intro n h
    interval_cases n
    simp [natPrintAux]
  | succ f ih =>
    intro n h
    by_cases h0 : n = 0
    · subst h0
      simp [natPrintAux]
    · have hdiv : n / 10 ≤ f := by
        have := Nat.div_lt_self (Nat.pos_of_ne_zero h0) (by norm_num : (1:ℕ) < 10)
        omega
      rw [natPrintAux, if_neg h0,
        Nat.digits_def' (by norm_num : (1:ℕ) < 10) (Nat.pos_of_ne_zero h0), List.map_cons,
        ih (n / 10) hdiv]

theorem natPrintChars_eq (n : Nat) :
    natPrintChars n = if n = 0 then ['0'] else ((Nat.digits 10 n).map digitChar).reverse := by
  by_cases h : n = 0 <;> simp [natPrintChars, h, natPrintAux_eq_digits n n le_rfl]

theorem natPrintChars_ne_nil (n : Nat) : natPrintChars n ≠ [] := by
  rw [natPrintChars_eq]
  by_cases h : n = 0
  · simp [h]
  · simp only [h, if_neg, ne_eq, List.reverse_eq_nil_iff, List.map_eq_nil_iff]
    simpa [Nat.digits_eq_nil_iff_eq_zero] using h

theorem mem_natPrintChars_isDigit {n : Nat} {c : Char} (h : c ∈ natPrintChars n) :
    isDigitCh c = true := by
  rw [natPrintChars_eq] at h
  by_cases h0 : n = 0
  · rw [h0] at h
    simp at h
    subst h
    decide
  · rw [if_neg h0, List.mem_reverse, List.mem_map] at h
    obtain ⟨d, _, hd⟩ := h
    rw [← hd]
    exact isDigitCh_digitChar d

theorem foldr_digits_ofDigits (L : List Nat) (h : ∀ d ∈ L, d < 10) :
    List.foldr (fun d a => 10 * a + digitVal (digitChar d)) 0 L = Nat.ofDigits 10 L := by
  induction L with
  | nil => simp [Nat.ofDigits]
  | cons d L ih =>
    rw [List.foldr_cons, ih (fun x hx => h x (List.mem_cons_of_mem d hx)),
      digitVal_digitChar (h d (List.mem_cons_self d L)), Nat.ofDigits_cons]
    omega

theorem natFromDigits_natPrintChars (n : Nat) : natFromDigits (natPrintChars n) = n := by
  rw [natPrintChars_eq]
  by_cases h0 : n = 0
  · simp [h0]
    decide
  · rw [if_neg h0]
    unfold natFromDigits
    rw [List.foldl_reverse]
    have : List.foldr (fun x y => 10 * y + digitVal x) 0 ((Nat.digits 10 n).map digitChar)
        = List.foldr (fun d a => 10 * a + digitVal (digitChar d)) 0 (Nat.digits 10 n) :=
      List.foldr_map _ _ _ _
    rw [this, foldr_digits_ofDigits _ (fun d hd => Nat.digits_lt_base (by norm_num) hd),
      Nat.ofDigits_digits]

theorem digits_length_le {n e : Nat} (hn : n < 10 ^ e) : (Nat.digits 10 n).length ≤ e := by
  rcases Nat.eq_zero_or_pos n with h0 | h0
  · subst h0
    simp
  · have h1 := Nat.base_pow_length_digits_le 10 n (by norm_num) (by omega)
    by_contra hc
    push_neg at hc
    have h2 : 10 ^ (e + 1) ≤ 10 ^ (Nat.digits 10 n).length :=
      Nat.pow_le_pow_right (by norm_num) (by omega)
    have h3 : 10 * n < 10 ^ (e + 1) := by
      calc 10 * n < 10 * 10 ^ e := by omega
      _ = 10 ^ (e + 1) := by ring
    omega

theorem natPrintChars_length_le {n e : Nat} (hn : n < 10 ^ e) (he : 1 ≤ e) :
    (natPrintChars n).length ≤ e := by
  rw [natPrintChars_eq]
  by_cases h0 : n = 0
  · simpa [h0] using he
  · rw [if_neg h0, List.length_reverse, List.length_map]
    exact digits_length_le hn

theorem takeWhile_all {α : Type} (p : α → Bool) (l : List α) (h : ∀ c ∈ l, p c = true) :
    l.takeWhile p = l := by
  induction l with
  | nil => rfl
  | cons a t ih =>
    rw [List.takeWhile_cons, h a (List.mem_cons_self a t),
      ih fun c hc => h c (List.mem_cons_of_mem a hc)]
    simp

theorem dropWhile_all {α : Type} (p : α → Bool) (l : List α) (h : ∀ c ∈ l, p c = true) :
    l.dropWhile p = [] := by
  induction l with
  | nil => rfl
  | cons a t ih =>
    rw [List.dropWhile_cons, h a (List.mem_cons_self a t)]
    exact ih fun c hc => h c (List.mem_cons_of_mem a hc)

theorem foldl_replicate_zero (k : Nat) :
    List.foldl (fun a c => 10 * a + digitVal c) 0 (List.replicate k '0') = 0 := by
  induction k with
  | zero => rfl
  | succ m ih => simpa [List.replicate_succ, List.foldl_cons] using ih

theorem natFromDigits_padLeft (k : Nat) (L : List Char) :
    natFromDigits (List.replicate k '0' ++ L) = natFromDigits L := by
  unfold natFromDigits
  rw [List.foldl_append, foldl_replicate_zero]

theorem isDigitCh_spec {c : Char} (h : isDigitCh c = true) : 48 ≤ c.toNat ∧ c.toNat ≤ 57 := by
  simpa [isDigitCh] using h

theorem isWS_of_digit {c : Char} (h : isDigitCh c = true) : isWS c = false := by
  have h1 := isDigitCh_spec h
  simp only [isWS, Bool.or_eq_false_iff, decide_eq_false_iff_not]
  omega

theorem digit_ne_minus {c : Char} (h : isDigitCh c = true) : c ≠ '-' := by
  intro he
  rw [he] at h
  exact absurd h (by decide)

theorem digit_ne_plus {c : Char} (h : isDigitCh c = true) : c ≠ '+' := by
  intro he
  rw [he] at h
  exact absurd h (by decide)

theorem parseUDec_natPrint (n : Nat) : parseUDec (natPrintChars n) = some (n, 0) := by
  have hall : ∀ c ∈ natPrintChars n, isDigitCh c = true := fun _ hc => mem_natPrintChars_isDigit hc
  have hne : (natPrintChars n).isEmpty = false := by
    simpa [List.isEmpty_iff] using natPrintChars_ne_nil n
  unfold parseUDec
  rw [takeWhile_all _ _ hall, dropWhile_all _ _ hall, hne]
  simp [natFromDigits_natPrintChars]

theorem parseUDec_print_frac (q r e : Nat) (he : 1 ≤ e) (hr : r < 10 ^ e) :
    parseUDec (natPrintChars q ++ '.' :: padLeft e (natPrintChars r)) =
      some (q * 10 ^ e + r, e) := by
  have hallA : ∀ c ∈ natPrintChars q, isDigitCh c = true := fun _ hc => mem_natPrintChars_isDigit hc
  have hlen : (padLeft e (natPrintChars r)).length = e := by
    have h1 := natPrintChars_length_le hr he
    simp only [padLeft, List.length_append, List.length_replicate]
    omega
  have hallB : ∀ c ∈ padLeft e (natPrintChars r), isDigitCh c = true := by
    intro c hc
    rcases List.mem_append.mp hc with h1 | h1
    · rw [List.eq_of_mem_replicate h1]
      decide
    · exact mem_natPrintChars_isDigit h1
  have hdot : isDigitCh '.' = false := by decide
  have htwA : (natPrintChars q).takeWhile isDigitCh = natPrintChars q := takeWhile_all _ _ hallA
  have htake : (natPrintChars q ++ '.' :: padLeft e (natPrintChars r)).takeWhile isDigitCh
      = natPrintChars q := by
    rw [List.takeWhile_append, if_pos (by rw [htwA]), List.takeWhile_cons, hdot]
    simp
  have hdrop : (natPrintChars q ++ '.' :: padLeft e (natPrintChars r)).dropWhile isDigitCh
      = '.' :: padLeft e (natPrintChars r) := by
    rw [List.dropWhile_append, if_pos (by rw [dropWhile_all _ _ hallA]; rfl),
      List.dropWhile_cons, hdot]
    simp
  have hne : (natPrintChars q).isEmpty = false := by
    simpa [List.isEmpty_iff] using natPrintChars_ne_nil q
  have hfne : (padLeft e (natPrintChars r)).isEmpty = false := by
    rw [List.isEmpty_eq_false_iff_exists_mem]
    have : 0 < (padLeft e (natPrintChars r)).length := by omega
    exact List.exists_mem_of_length_pos this
  have hfall : (padLeft e (natPrintChars r)).all isDigitCh = true := by
    rw [List.all_eq_true]
    exact hallB
  unfold parseUDec
  rw [htake, hdrop, hne]
  simp only [Bool.false_eq_true, if_false, hfne, hfall, if_true]
  rw [natFromDigits_natPrintChars, hlen]
  rw [show natFromDigits (padLeft e (natPrintChars r)) = r from by
    rw [padLeft, natFromDigits_padLeft, natFromDigits_natPrintChars]]

theorem parseDecChars_cons (c : Char) (r : List Char) :
    parseDecChars (c :: r) =
      if c = '-' then (parseUDec r).map (fun p => (-(p.1 : Int), p.2))
      else if c = '+' then (parseUDec r).map (fun p => ((p.1 : Int), p.2))
      else (parseUDec (c :: r)).map (fun p => ((p.1 : Int), p.2)) := rfl

theorem parseDecChars_decPrint (d : Int × Nat) : parseDecChars (decPrintChars d) = some d := by
  obtain ⟨m, e⟩ := d
  by_cases he : e = 0
  · subst he
    by_cases hm : m < 0
    · have hprint : decPrintChars (m, 0) = '-' :: natPrintChars m.natAbs := by
        simp [decPrintChars, hm]
      rw [hprint, parseDecChars_cons, if_pos rfl, parseUDec_natPrint]
      simp only [Option.map_some', Option.some.injEq, Prod.mk.injEq]
      exact ⟨by omega, trivial⟩
    · have hprint : decPrintChars (m, 0) = natPrintChars m.natAbs := by
        simp [decPrintChars, hm]
      rw [hprint]
      cases hval : natPrintChars m.natAbs with
      | nil => exact absurd hval (natPrintChars_ne_nil _)
      | cons c r =>
        have hcdig : isDigitCh c = true :=
          mem_natPrintChars_isDigit (hval ▸ List.mem_cons_self c r)
        rw [parseDecChars_cons, if_neg (digit_ne_minus hcdig), if_neg (digit_ne_plus hcdig),
          ← hval, parseUDec_natPrint]
        simp only [Option.map_some', Option.some.injEq, Prod.mk.injEq]
        exact ⟨by omega, trivial⟩
  · have he1 : 1 ≤ e := by omega
    have hmod : m.natAbs % 10 ^ e < 10 ^ e := Nat.mod_lt _ (Nat.pos_pow_of_pos e (by norm_num))
    have hdm : m.natAbs / 10 ^ e * 10 ^ e + m.natAbs % 10 ^ e = m.natAbs := by
      have h := Nat.div_add_mod m.natAbs (10 ^ e)
      rw [Nat.mul_comm] at h
      exact h
    by_cases hm : m < 0
    · have hprint : decPrintChars (m, e) = '-' :: (natPrintChars (m.natAbs / 10 ^ e) ++
          '.' :: padLeft e (natPrintChars (m.natAbs % 10 ^ e))) := by
        simp [decPrintChars, hm, he]
      rw [hprint, parseDecChars_cons, if_pos rfl, parseUDec_print_frac _ _ _ he1 hmod, hdm]
      simp only [Option.map_some', Option.some.injEq, Prod.mk.injEq]
      exact ⟨by omega, trivial⟩
    · have hprint : decPrintChars (m, e) = natPrintChars (m.natAbs / 10 ^ e) ++
          '.' :: padLeft e (natPrintChars (m.natAbs % 10 ^ e)) := by
        simp [decPrintChars, hm, he]
      rw [hprint]
      cases hval : natPrintChars (m.natAbs / 10 ^ e) with
      | nil => exact absurd hval (natPrintChars_ne_nil _)
      | cons c r =>
        have hcdig : isDigitCh c = true :=
          mem_natPrintChars_isDigit (hval ▸ List.mem_cons_self c r)
        rw [List.cons_append, parseDecChars_cons, if_neg (digit_ne_minus hcdig),
          if_neg (digit_ne_plus hcdig), ← List.cons_append, ← hval,
          parseUDec_print_frac _ _ _ he1 hmod, hdm]
        simp only [Option.map_some', Option.some.injEq, Prod.mk.injEq]
        exact ⟨by omega, trivial⟩

theorem dropWhile_isWS_of_no_ws (l : List Char) (h : ∀ c ∈ l, isWS c = false) :
    l.dropWhile isWS = l := by
  cases l with
  | nil => rfl
  | cons a t => simp [List.dropWhile_cons, h a (List.mem_cons_self a t)]

theorem stripEnd_of_no_ws (l : List Char) (h : ∀ c ∈ l, isWS c = false) :
    stripEnd l = l := by
  induction l with
  | nil => rfl
  | cons a t ih =>
    have ht := ih fun c hc => h c (List.mem_cons_of_mem a hc)
    rw [stripEnd_cons, ht]
    cases t with
    | nil => simp [h a (List.mem_cons_self a [])]
    | cons b u => rfl

theorem stripChars_of_no_ws (l : List Char) (h : ∀ c ∈ l, isWS c = false) :
    stripChars l = l := by
  rw [stripChars, dropWhile_isWS_of_no_ws l h, stripEnd_of_no_ws l h]

theorem decPrintChars_no_ws (d : Int × Nat) : ∀ c ∈ decPrintChars d, isWS c = false := by
  intro c hc
  unfold decPrintChars at hc
  rcases List.mem_append.mp hc with h1 | h1
  · split at h1
    · simp at h1
      rw [h1]
      decide
    · simp at h1
  · split at h1
    · exact isWS_of_digit (mem_natPrintChars_isDigit h1)
    · rcases List.mem_append.mp h1 with h2 | h2
      · exact isWS_of_digit (mem_natPrintChars_isDigit h2)
      · rcases List.mem_cons.mp h2 with h3 | h3
        · rw [h3]
          decide
        · rcases List.mem_append.mp ((by simpa [padLeft] using h3 :
            c ∈ List.replicate _ '0' ++ natPrintChars _)) with h4 | h4
          · rw [List.eq_of_mem_replicate h4]
            decide
          · exact isWS_of_digit (mem_natPrintChars_isDigit h4)

/-- Printing a float into a CSV cell and parsing it back is the identity. -/
theorem parseDec_decPrint (d : Int × Nat) : parseDec (decPrint d) = some d := by
  show parseDecChars (stripChars (decPrintChars d)) = some d
  rw [stripChars_of_no_ws _ (decPrintChars_no_ws d), parseDecChars_decPrint]

/-- Substring test: does `pat` occur contiguously inside the second list?
(Model of Python's `in` on strings / pandas `str.contains` with a literal.) -/
def containsSubChars : List Char → List Char → Bool
  | pat, [] => pat.isEmpty
  | pat, c :: t => pat.isPrefixOf (c :: t) || containsSubChars pat t

def containsSub (pat s : String) : Bool := containsSubChars pat.data s.data

/-! ## Data model: `services/transaction.py` and the stored CSV table -/

/-- `REQUIRED_FIELDS` from `services/expense_tracker.py`. -/
def REQUIRED_FIELDS : List String := ["Date", "Category", "Amount", "Type"]

/-- `services/transaction.py`: the `Transaction` value object.  `amount` is the
raw (string) form supplied by the caller; the store parses it with `float()`. -/
structure Transaction where
  date : String
  category : String
  amount : String
  t_type : String
deriving DecidableEq, Repr

/-- One data row of the backing CSV file under the canonical header
`Date,Category,Amount,Type`, exactly as written by `csv.DictWriter`. -/
structure RawRow where
  date : String
  category : String
  amount : String
  typ : String
deriving DecidableEq, Repr

/-- One row of the loaded, normalized table produced by
`ExpenseTracker._read_dataframe`: `Amount` coerced to a number, `Type`
lower-cased and stripped, `Date`/`Category` stripped. -/
structure Row where
  date : String
  category : String
  amount : Rat
  typ : String
deriving DecidableEq, Repr

/-! ## Record store: `services/expense_tracker.py` -/

/-- `ExpenseTracker._file_has_valid_header`: read the first CSV record; the
file is valid when every required field name occurs among the
stripped-and-lower-cased header cells. -/
def file_has_valid_header (file : List (List String)) : Bool :=
  match file.head? with
  | none => false
  | some header =>
    REQUIRED_FIELDS.all fun req => header.any fun c => pyLower (pyStrip c) == pyLower req

/-- `ExpenseTracker.__init__` acting on the file contents (`none` models a
missing file, otherwise the parsed CSV records, header first).  A missing or
invalidly-headed file is replaced by an empty file holding only the canonical
header (`_create_empty_file`); a valid file is left untouched. -/
def trackerInit (file : Option (List (List String))) : List (List String) :=
  match file with
  | none => [REQUIRED_FIELDS]
  | some f => if file_has_valid_header f then f else [REQUIRED_FIELDS]

/-- `ExpenseTracker.add_transaction`: normalize `Type` (strip + lower), coerce
`Amount` via `float()` falling back to `0.0`, and append one CSV row.  The
float is written back as a decimal string (`decPrint`), value-faithfully. -/
def add_transaction (rows : List RawRow) (t : Transaction) : List RawRow :=
  rows ++ [{ date := t.date, category := t.category,
             amount := decPrint ((parseDec t.amount).getD (0, 1)),
             typ := pyLower (pyStrip t.t_type) }]

/-- Amount coercion on load: `pd.to_numeric(..., errors="coerce").fillna(0.0)`. -/
def coerceAmount (s : String) : Rat :=
  match parseDec s with
  | some d => ratOfDec d
  | none => 0

/-- The per-row normalization applied by `ExpenseTracker._read_dataframe`. -/
def coerceRow (r : RawRow) : Row :=
  { date := pyStrip r.date, category := pyStrip r.category,
    amount := coerceAmount r.amount, typ := pyLower (pyStrip r.typ) }

/-- `ExpenseTracker._read_dataframe` on a store file with the canonical
header (`none` models an unreadable file, which yields the empty table with
the canonical columns instead of raising). -/
def read_dataframe (file : Option (List RawRow)) : List Row :=
  match file with
  | none => []
  | some rows => rows.map coerceRow

/-! ## Aggregation: the summary block of `views.home` -/

/-- The summary dictionary computed by `views.home`. -/
structure Summary where
  income : Rat
  expense : Rat
  balance : Rat
  top_category : Option String
  top_value : Rat
deriving DecidableEq, Repr

def expenseRows (t : List Row) : List Row := t.filter fun r => r.typ == "expense"

def incomeRows (t : List Row) : List Row := t.filter fun r => r.typ == "income"

/-- Kernel-computable sum of rationals. -/
def sumRat (l : List Rat) : Rat := l.foldr (fun x a => x + a) 0

def sumAmounts (rows : List Row) : Rat := sumRat (rows.map Row.amount)

/-- The per-category sum of `Amount` over the given rows. -/
def catSum (rows : List Row) (c : String) : Rat :=
  sumAmounts (rows.filter fun r => r.category == c)

/-- The distinct categories of the given rows (the groupby keys). -/
def categoriesOf (rows : List Row) : List String := (rows.map Row.category).dedup

def insertDesc (p : String × Rat) : List (String × Rat) → List (String × Rat)
  | [] => [p]
  | q :: l => if q.2 < p.2 then p :: q :: l else q :: insertDesc p l

def sortDescBySum (l : List (String × Rat)) : List (String × Rat) :=
  l.foldr insertDesc []

/-- `groupby("Category")["Amount"].sum().sort_values(ascending=False)` as
(category, total) pairs.  Pandas leaves the order of ties unspecified; this
model fixes one deterministic choice. -/
def groupedDesc (rows : List Row) : List (String × Rat) :=
  sortDescBySum ((categoriesOf rows).map fun c => (c, catSum rows c))

/-- The summary block of `views.home`: on an empty table every field keeps its
zero / `None` initial value; otherwise income/expense totals and balance are
filled in, and the top category comes from the head of the descending
per-category expense totals when any expense row exists. -/
def homeSummary (t : List Row) : Summary :=
  if t.isEmpty then ⟨0, 0, 0, none, 0⟩
  else
    match (groupedDesc (expenseRows t)).head? with
    | some p =>
      ⟨sumAmounts (incomeRows t), sumAmounts (expenseRows t),
        sumAmounts (incomeRows t) - sumAmounts (expenseRows t), some p.1, p.2⟩
    | none =>
      ⟨sumAmounts (incomeRows t), sumAmounts (expenseRows t),
        sumAmounts (incomeRows t) - sumAmounts (expenseRows t), none, 0⟩

/-! ## The filter block of `views.home` -/

/-- Python truthiness of an optional query parameter. -/
def truthy (o : Option String) : Bool :=
  match o with
  | none => false
  | some s => !(s == "")

/-- `str.startswith`. -/
def startsWith (pre s : String) : Bool := pre.data.isPrefixOf s.data

/-- Approximate model of `str(x)` on a row Series, used only by the search
filter (`search_query in str(x).lower()`); no claim depends on its exact
shape, only on the search filter being skipped for an empty query. -/
def rowStr (r : Row) : String :=
  String.mk (("Date ".data ++ r.date.data) ++ ("\nCategory ".data ++ r.category.data) ++
    ("\nAmount ".data ++ decPrintChars (r.amount.num, 0)) ++ ("\nType ".data ++ r.typ.data))

def rowSearch (q : String) (r : Row) : Bool := containsSub q (pyLower (rowStr r))

/-- The filter block of `views.home`: month prefix filter, category filter
with the `"All"` sentinel, and whole-row substring search, applied in that
order (and only when the table is non-empty). -/
def applyHomeFilters (month category : Option String) (search : String) (t : List Row) :
    List Row :=
  if t.isEmpty then t
  else
    let t1 := if truthy month then t.filter fun r => startsWith (month.getD "") r.date else t
    let t2 := if truthy category && !(category.getD "" == "All")
              then t1.filter fun r => r.category == category.getD "" else t1
    if !(search == "") then t2.filter (rowSearch search) else t2

/-! ## Row deletion and the investment management views (`views.py`) -/

/-- `views.delete_transaction`: read the file, drop the row at position
`row_id` when `0 <= row_id < len(df)`, write it back; no-op otherwise. -/
def delete_transaction (rows : List RawRow) (row_id : Nat) : List RawRow :=
  if row_id < rows.length then rows.eraseIdx row_id else rows

/-- `views.delete_investment`: identical file mutation (in particular it does
not check that the targeted row is an investment row). -/
def delete_investment (rows : List RawRow) (row_id : Nat) : List RawRow :=
  if row_id < rows.length then rows.eraseIdx row_id else rows

/-- `str.lower().str.contains("invest")` on a raw category cell. -/
def invContains (c : String) : Bool := containsSub "invest" (pyLower c)

/-- `views.manage_investments`: the listing of investment rows; after
`reset_index(drop=True)` and `inv_df["id"] = inv_df.index`, the id displayed
for each row is its position in the filtered subtable. -/
def manage_investments_list (rows : List RawRow) : List (Nat × RawRow) :=
  (rows.filter fun r => invContains r.category).enum

/-- The row that `views.edit_investment` / `views.delete_investment` actually
target for a given `row_id`: the row at that position in the full table. -/
def investmentTarget (rows : List RawRow) (row_id : Nat) : Option RawRow :=
  rows[row_id]?

/-! ## Investment analysis: `views.analyze_investment` -/

/-- The category filter of `analyze_investment`:
`df["Category"].str.lower().str.contains("invest|sip|mf|fund|stock")`. -/
def isInvestCat (c : String) : Bool :=
  ["invest", "sip", "mf", "fund", "stock"].any fun p => containsSub p (pyLower c)

def daysInMonth (y m : Nat) : Nat :=
  if m = 2 then (if y % 4 = 0 && (y % 100 ≠ 0 || y % 400 = 0) then 29 else 28)
  else if m = 4 || m = 6 || m = 9 || m = 11 then 30
  else 31

/-- Split a character list at every occurrence of `sep`. -/
def splitOnChar (sep : Char) : List Char → List (List Char)
  | [] => [[]]
  | c :: t =>
    if c = sep then [] :: splitOnChar sep t
    else
      match splitOnChar sep t with
      | [] => [[c]]
      | g :: gs => (c :: g) :: gs

def validYear (y : List Char) : Bool := y.length == 4 && y.all isDigitCh

def validMonth (m : List Char) : Bool :=
  !m.isEmpty && m.length ≤ 2 && m.all isDigitCh &&
    1 ≤ natFromDigits m && natFromDigits m ≤ 12

def validDay (dd : List Char) (y m : Nat) : Bool :=
  !dd.isEmpty && dd.length ≤ 2 && dd.all isDigitCh &&
    1 ≤ natFromDigits dd && natFromDigits dd ≤ daysInMonth y m

/-- Model of `pandas.to_datetime(..., errors="coerce")` on the ISO-like date
strings this app stores (`YYYY-MM-DD` or `YYYY-MM`, calendar-valid); anything
else is NaT (`none`).  Only year and month are used downstream
(`strftime "%Y-%m"`). -/
def parseDate (s : String) : Option (Nat × Nat) :=
  match splitOnChar '-' (stripChars s.data) with
  | [y, m] =>
    if validYear y && validMonth m then some (natFromDigits y, natFromDigits m) else none
  | [y, m, dd] =>
    if validYear y && validMonth m && validDay dd (natFromDigits y) (natFromDigits m)
    then some (natFromDigits y, natFromDigits m)
    else none
  | _ => none

/-- `strftime "%Y-%m"`: zero-padded year and month. -/
def fmtMonth (ym : Nat × Nat) : String :=
  String.mk (padLeft 4 (natPrintChars ym.1) ++ '-' :: padLeft 2 (natPrintChars ym.2))

/-- The `YYYY-MM` bucket of a date cell, `none` when the date does not parse. -/
def monthKey (dateStr : String) : Option String := (parseDate dateStr).map fmtMonth

/-- The investment subtable selected by `analyze_investment`. -/
def investmentRows (t : List Row) : List Row := t.filter fun r => isInvestCat r.category

/-- Investment rows keyed by month bucket; rows whose `Date` does not parse
are dropped (`to_datetime(errors="coerce")` + `dropna`). -/
def investmentKeyed (t : List Row) : List (String × Rat) :=
  (investmentRows t).filterMap fun r => (monthKey r.date).map fun m => (m, r.amount)

def strLeChars : List Char → List Char → Bool
  | [], _ => true
  | _ :: _, [] => false
  | a :: as, b :: bs =>
    if a.toNat < b.toNat then true else if b.toNat < a.toNat then false else strLeChars as bs

def strLe (a b : String) : Bool := strLeChars a.data b.data

def insertAsc (s : String) : List String → List String
  | [] => [s]
  | x :: l => if strLe s x then s :: x :: l else x :: insertAsc s l

def sortAsc (l : List String) : List String := l.foldr insertAsc []

/-- `analyze_investment`'s monthly series:
`inv_df.groupby("Month")["Amount"].sum()` sorted ascending by month — one
(month, total) pair per distinct month bucket among the kept rows. -/
def investment_series (t : List Row) : List (String × Rat) :=
  (sortAsc ((investmentKeyed t).map Prod.fst).dedup).map fun m =>
    (m, sumRat (((investmentKeyed t).filter fun p => p.1 == m).map Prod.snd))

/-! ## Claim C1: header validity on construction -/

theorem file_has_valid_header_iff (f : List (List String)) :
    file_has_valid_header f = true ↔
      ∃ header, f.head? = some header ∧
        ∀ req ∈ REQUIRED_FIELDS, ∃ c ∈ header, pyLower (pyStrip c) = pyLower req := by
  unfold file_has_valid_header
  cases h : f.head? with
  | none => simp
  | some header =>
    simp [List.all_eq_true, List.any_eq_true]

/-- C1: constructing the store over an existing file preserves the file if and
only if its header row contains all four required field names under the
case-insensitive (strip + lower) comparison the source applies; otherwise —
including a file with no header row at all — the file is replaced by the empty
file holding only the canonical header, losing all data rows.  A file whose
header is `date,category,amount,type` is treated as valid and not recreated. -/
theorem C1_header_validity :
    (∀ f : List (List String),
      (trackerInit (some f) = f ↔
        ∃ header, f.head? = some header ∧
          ∀ req ∈ REQUIRED_FIELDS, ∃ c ∈ header, pyLower (pyStrip c) = pyLower req)) ∧
    (∀ f : List (List String), file_has_valid_header f = false →
      trackerInit (some f) = [REQUIRED_FIELDS]) ∧
    trackerInit (some [["date", "category", "amount", "type"],
        ["2024-01", "Food", "5", "expense"]]) =
      [["date", "category", "amount", "type"], ["2024-01", "Food", "5", "expense"]] := by
  refine ⟨fun f => ?_, fun f h => ?_, by decide⟩
  · rw [← file_has_valid_header_iff]
    constructor
    · intro h
      by_cases hv : file_has_valid_header f = true
      · exact hv
      · exfalso
        have h2 : trackerInit (some f) = [REQUIRED_FIELDS] := by
          simp [trackerInit, hv]
        rw [h] at h2
        subst h2
        exact hv (by decide)
    · intro hv
      simp [trackerInit, hv]
  · simp [trackerInit, h]

theorem C1_header_validity_witness :
    file_has_valid_header [["Date", "Category", "Type"], ["x", "y", "z"]] = false ∧
    trackerInit (some [["Date", "Category", "Type"], ["x", "y", "z"]]) = [REQUIRED_FIELDS] :=
  ⟨by decide, C1_header_validity.2.1 _ (by decide)⟩

/-! ## Claim C2: displayed investment row ids versus edit/delete targets -/

/-- C2: the id shown by `manage_investments` is the row's position in the
investment-only subtable, while `edit_investment`/`delete_investment` index
the full table; on a table with a non-investment row before an investment row
the displayed id 0 refers to the SIP row but targets (and deletes) the Food
row. -/
theorem C2_investment_id_mismatch :
    manage_investments_list [⟨"2024-03", "Food", "50", "expense"⟩,
        ⟨"2024-03", "SIP Investment", "200", "investment"⟩] =
      [(0, ⟨"2024-03", "SIP Investment", "200", "investment"⟩)] ∧
    investmentTarget [⟨"2024-03", "Food", "50", "expense"⟩,
        ⟨"2024-03", "SIP Investment", "200", "investment"⟩] 0 =
      some ⟨"2024-03", "Food", "50", "expense"⟩ ∧
    (⟨"2024-03", "Food", "50", "expense"⟩ : RawRow) ≠
      ⟨"2024-03", "SIP Investment", "200", "investment"⟩ ∧
    delete_investment [⟨"2024-03", "Food", "50", "expense"⟩,
        ⟨"2024-03", "SIP Investment", "200", "investment"⟩] 0 =
      [⟨"2024-03", "SIP Investment", "200", "investment"⟩] := by
  refine ⟨by decide, by decide, by decide, by decide⟩

/-! ## Claim C6: delete_row followed by load -/

/-- C6: for an in-range index, `delete_row(i)` followed by `load` yields the
original loaded table with the row at position `i` removed (one fewer row,
remaining rows unchanged and in order); for an out-of-range index the stored
table is unchanged. -/
theorem C6_delete_row_load (rows : List RawRow) (i : Nat) :
    (i < rows.length →
      read_dataframe (some (delete_transaction rows i)) =
        (read_dataframe (some rows)).take i ++ (read_dataframe (some rows)).drop (i + 1) ∧
      (read_dataframe (some (delete_transaction rows i))).length =
        (read_dataframe (some rows)).length - 1) ∧
    (¬ i < rows.length → delete_transaction rows i = rows) := by
  constructor
  · intro h
    have hdel : delete_transaction rows i = rows.take i ++ rows.drop (i + 1) := by
      unfold delete_transaction
      rw [if_pos h, List.eraseIdx_eq_take_drop_succ]
    constructor
    · show (delete_transaction rows i).map coerceRow =
        (rows.map coerceRow).take i ++ (rows.map coerceRow).drop (i + 1)
      rw [hdel, List.map_append, List.map_take, List.map_drop]
    · show ((delete_transaction rows i).map coerceRow).length = (rows.map coerceRow).length - 1
      rw [hdel]
      simp only [List.map_append, List.length_append, List.length_map, List.length_take,
        List.length_drop]
      omega
  · intro h
    unfold delete_transaction
    rw [if_neg h]

theorem C6_delete_row_load_witness :
    (read_dataframe (some (delete_transaction [⟨"2024-01", "Food", "5", "expense"⟩] 0)) =
      (read_dataframe (some [⟨"2024-01", "Food", "5", "expense"⟩])).take 0 ++
        (read_dataframe (some [⟨"2024-01", "Food", "5", "expense"⟩])).drop 1 ∧
      (read_dataframe (some (delete_transaction [⟨"2024-01", "Food", "5", "expense"⟩] 0))).length =
        (read_dataframe (some [⟨"2024-01", "Food", "5", "expense"⟩])).length - 1) ∧
    delete_transaction [⟨"2024-01", "Food", "5", "expense"⟩] 5 =
      [⟨"2024-01", "Food", "5", "expense"⟩] :=
  ⟨(C6_delete_row_load [⟨"2024-01", "Food", "5", "expense"⟩] 0).1 (by decide),
    (C6_delete_row_load [⟨"2024-01", "Food", "5", "expense"⟩] 5).2 (by decide)⟩

/-! ## Claim C7: unreadable file loads as an empty table -/

/-- C7: when the backing file is unreadable, `load` returns the empty table
(with the four canonical columns, by the type of `Row`) rather than raising,
and the aggregate operations on that result are total and yield empty/zero
results; in this embedding every load and aggregate operation is a total
function, so no exception can propagate. -/
theorem C7_unreadable_file :
    read_dataframe none = ([] : List Row) ∧
    homeSummary (read_dataframe none) = ⟨0, 0, 0, none, 0⟩ ∧
    investment_series (read_dataframe none) = [] ∧
    (∀ m c s, applyHomeFilters m c s (read_dataframe none) = []) :=
  ⟨rfl, rfl, rfl, fun _ _ _ => rfl⟩

/-! ## Claim C8: balance = income - expense -/

/-- C8: for every table, the summary's balance equals its income total minus
its expense total. -/
theorem C8_balance (t : List Row) :
    (homeSummary t).balance = (homeSummary t).income - (homeSummary t).expense := by
  unfold homeSummary
  by_cases h : t.isEmpty
  · simp [h]
  · simp only [h, Bool.false_eq_true, if_false]
    cases (groupedDesc (expenseRows t)).head? <;> simp

/-! ## Claim C9: the "All" category filter is the identity -/

/-- C9: filtering with the category sentinel `"All"` (and no month or search
filter) returns the table unchanged. -/
theorem C9_all_filter_identity (t : List Row) :
    applyHomeFilters none (some "All") "" t = t := by
  unfold applyHomeFilters
  by_cases h : t.isEmpty <;> simp [h, truthy]

/-! ## Claim C10: delete_investment and delete_transaction agree -/

/-- C10: `delete_investment` and `delete_transaction` compute the same
function on the stored file, and `delete_investment` performs no check that
the targeted row is an investment row — it deletes the non-investment row at
the given position. -/
theorem C10_delete_equivalence :
    (∀ (rows : List RawRow) (row_id : Nat),
      delete_investment rows row_id = delete_transaction rows row_id) ∧
    invContains "Food" = false ∧
    delete_investment [⟨"2024-03", "Food", "50", "expense"⟩,
        ⟨"2024-03", "SIP Investment", "200", "investment"⟩] 0 =
      [⟨"2024-03", "SIP Investment", "200", "investment"⟩] :=
  ⟨fun _ _ => rfl, by decide, by decide⟩

/-! ## Claim C3: append followed by load (corrected) -/

theorem append_load_normalized (file : List RawRow) (t : Transaction) :
    read_dataframe (some (add_transaction file t)) =
      read_dataframe (some file) ++
        [{ date := pyStrip t.date, category := pyStrip t.category,
           amount := ratOfDec ((parseDec t.amount).getD (0, 1)),
           typ := pyLower (pyStrip t.t_type) }] := by
  show (add_transaction file t).map coerceRow = file.map coerceRow ++ _
  unfold add_transaction
  rw [List.map_append]
  congr 1
  simp only [List.map_cons, List.map_nil]
  congr 1
  unfold coerceRow coerceAmount
  rw [parseDec_decPrint]
  rw [pyStrip_pyLower_pyStrip, pyLower_idem]

/-- C3 counterexample: the claim "its Date and Category fields match the
transaction's" fails for a whitespace-padded date — the loaded Date is the
trimmed string `"2024-01"`, not the transaction's `" 2024-01 "`. -/
theorem C3_append_load_counterexample :
    read_dataframe (some (add_transaction [] ⟨" 2024-01 ", "Food", "5", "expense"⟩)) =
      [⟨"2024-01", "Food", 5, "expense"⟩] ∧
    (" 2024-01 " : String) ≠ "2024-01" := by
  constructor
  · rw [append_load_normalized]
    have h1 : pyStrip " 2024-01 " = "2024-01" := by decide
    have h2 : pyStrip "Food" = "Food" := by decide
    have h3 : pyLower (pyStrip "expense") = "expense" := by decide
    have h4 : (parseDec "5").getD (0, 1) = (5, 0) := by decide
    have h5 : ratOfDec (5, 0) = 5 := by decide
    simp only [read_dataframe, List.map_nil, List.nil_append, h1, h2, h3, h4, h5]
  · decide

/-- C3 (amended): appending a transaction and then loading yields the previous
loaded table, unchanged, followed by exactly one new row whose Date and
Category are the transaction's after trimming whitespace, whose Type is the
transaction's type trimmed and lower-cased, and whose Amount is the
transaction's amount parsed as a decimal number (0.0 when unparseable). -/
theorem C3_append_load_amended (file : List RawRow) (t : Transaction) :
    read_dataframe (some (add_transaction file t)) =
      read_dataframe (some file) ++
        [{ date := pyStrip t.date, category := pyStrip t.category,
           amount := ratOfDec ((parseDec t.amount).getD (0, 1)),
           typ := pyLower (pyStrip t.t_type) }] :=
  append_load_normalized file t

/-! ## Claim C4: the top expense category (corrected) -/

theorem mem_insertDesc {p x : String × Rat} {l : List (String × Rat)} :
    x ∈ insertDesc p l ↔ x = p ∨ x ∈ l := by
  induction l with
  | nil => simp [insertDesc]
  | cons q t ih =>
    unfold insertDesc
    by_cases h : q.2 < p.2
    · simp [h]
    · simp only [h, if_false, List.mem_cons, ih]
      tauto

theorem insertDesc_ne_nil (p : String × Rat) (l : List (String × Rat)) :
    insertDesc p l ≠ [] := by
  cases l with
  | nil => simp [insertDesc]
  | cons q t =>
    unfold insertDesc
    split <;> simp

theorem sortDescBySum_eq_nil_iff (l : List (String × Rat)) :
    sortDescBySum l = [] ↔ l = [] := by
  cases l with
  | nil => simp [sortDescBySum]
  | cons a t =>
    simp only [sortDescBySum, List.foldr_cons]
    constructor
    · intro h
      exact absurd h (insertDesc_ne_nil a _)
    · intro h
      exact absurd h (by simp)

theorem mem_sortDescBySum {x : String × Rat} {l : List (String × Rat)} :
    x ∈ sortDescBySum l ↔ x ∈ l := by
  induction l with
  | nil => simp [sortDescBySum]
  | cons a t ih =>
    simp only [sortDescBySum, List.foldr_cons, List.mem_cons]
    rw [mem_insertDesc]
    simp only [sortDescBySum] at ih
    rw [ih]

theorem pairwise_insertDesc {p : String × Rat} {l : List (String × Rat)}
    (h : l.Pairwise fun a b => b.2 ≤ a.2) :
    (insertDesc p l).Pairwise fun a b => b.2 ≤ a.2 := by
  induction l with
  | nil => simp [insertDesc]
  | cons q t ih =>
    rcases List.pairwise_cons.mp h with ⟨hq, ht⟩
    unfold insertDesc
    by_cases hlt : q.2 < p.2
    · rw [if_pos hlt]
      refine List.pairwise_cons.mpr ⟨?_, h⟩
      intro b hb
      rcases List.mem_cons.mp hb with rfl | hb
      · exact le_of_lt hlt
      · exact le_trans (hq b hb) (le_of_lt hlt)
    · rw [if_neg hlt]
      refine List.pairwise_cons.mpr ⟨?_, ih ht⟩
      intro b hb
      rcases mem_insertDesc.mp hb with rfl | hb
      · exact not_lt.mp hlt
      · exact hq b hb

theorem pairwise_sortDescBySum (l : List (String × Rat)) :
    (sortDescBySum l).Pairwise fun a b => b.2 ≤ a.2 := by
  induction l with
  | nil => simp [sortDescBySum]
  | cons a t ih =>
    simp only [sortDescBySum, List.foldr_cons]
    exact pairwise_insertDesc ih

theorem head_max_sortDescBySum {l : List (String × Rat)} {h : String × Rat}
    {t2 : List (String × Rat)} (hs : sortDescBySum l = h :: t2) {x : String × Rat}
    (hx : x ∈ l) : x.2 ≤ h.2 := by
  have hp := pairwise_sortDescBySum l
  rw [hs] at hp
  have hm : x ∈ h :: t2 := by
    rw [← hs]
    exact mem_sortDescBySum.mpr hx
  rcases List.mem_cons.mp hm with rfl | hm
  · exact le_refl _
  · exact (List.pairwise_cons.mp hp).1 x hm

theorem categoriesOf_eq_nil_iff (rows : List Row) : categoriesOf rows = [] ↔ rows = [] := by
  unfold categoriesOf
  rw [List.dedup_eq_nil, List.map_eq_nil_iff]

theorem groupedDesc_eq_nil_iff (rows : List Row) : groupedDesc rows = [] ↔ rows = [] := by
  unfold groupedDesc
  rw [sortDescBySum_eq_nil_iff, List.map_eq_nil_iff, categoriesOf_eq_nil_iff]

/-- C4 counterexample: for the one-row table with a zero-amount expense row,
the only expense category is Food and its per-category sum is zero (so every
per-category expense sum is zero), yet the summary's top category is
`some "Food"`, not null as the claim requires. -/
theorem C4_top_category_counterexample :
    categoriesOf (expenseRows [⟨"2024-01", "Food", 0, "expense"⟩]) = ["Food"] ∧
    catSum (expenseRows [⟨"2024-01", "Food", 0, "expense"⟩]) "Food" = 0 ∧
    (homeSummary [⟨"2024-01", "Food", 0, "expense"⟩]).top_category = some "Food" := by
  refine ⟨by decide, ?_, by decide⟩
  have h1 : expenseRows [(⟨"2024-01", "Food", 0, "expense"⟩ : Row)] =
      [⟨"2024-01", "Food", 0, "expense"⟩] := by decide
  rw [h1]
  show catSum [(⟨"2024-01", "Food", 0, "expense"⟩ : Row)] "Food" = 0
  have h2 : ([(⟨"2024-01", "Food", 0, "expense"⟩ : Row)].filter
      fun r => r.category == "Food") = [⟨"2024-01", "Food", 0, "expense"⟩] := by decide
  unfold catSum sumAmounts
  rw [h2]
  show sumRat [0] = 0
  norm_num [sumRat]

/-- C4 (amended): the summary's top_expense_category is null if and only if
the table has no expense rows; whenever expense rows exist (even with all
per-category sums zero or negative) it is some category attaining the maximal
per-category expense sum, and top_value is that category's sum. -/
theorem C4_top_category_amended (t : List Row) :
    ((homeSummary t).top_category = none ↔ expenseRows t = []) ∧
    (expenseRows t ≠ [] →
      ∃ c, (homeSummary t).top_category = some c ∧
        (homeSummary t).top_value = catSum (expenseRows t) c ∧
        ∀ d ∈ categoriesOf (expenseRows t),
          catSum (expenseRows t) d ≤ catSum (expenseRows t) c) := by
  by_cases hemp : t.isEmpty = true
  · have ht : t = [] := by
      cases t with
      | nil => rfl
      | cons a t => exact absurd hemp (by simp)
    subst ht
    constructor
    · simp [homeSummary, expenseRows]
    · intro h
      exact absurd rfl h
  · constructor
    · cases hh : (groupedDesc (expenseRows t)).head? with
      | none =>
        have hg : groupedDesc (expenseRows t) = [] := List.head?_eq_none_iff.mp hh
        have htop : (homeSummary t).top_category = none := by
          unfold homeSummary
          rw [if_neg hemp, hh]
        rw [htop, (groupedDesc_eq_nil_iff _).mp hg]
        simp
      | some p =>
        have htop : (homeSummary t).top_category = some p.1 := by
          unfold homeSummary
          rw [if_neg hemp, hh]
        have hg : groupedDesc (expenseRows t) ≠ [] := by
          intro hg
          rw [hg] at hh
          exact absurd hh (by simp)
        rw [htop]
        simp only [iff_iff_implies_and_implies]
        constructor
        · intro h
          exact absurd h (by simp)
        · intro h
          exact absurd ((groupedDesc_eq_nil_iff _).mpr h) hg
    · intro hne
      obtain ⟨p, hp⟩ : ∃ p, (groupedDesc (expenseRows t)).head? = some p := by
        cases hh : (groupedDesc (expenseRows t)).head? with
        | none =>
          exact absurd ((groupedDesc_eq_nil_iff _).mp (List.head?_eq_none_iff.mp hh)) hne
        | some p => exact ⟨p, rfl⟩
      have htop : (homeSummary t).top_category = some p.1 ∧ (homeSummary t).top_value = p.2 := by
        unfold homeSummary
        rw [if_neg hemp, hp]
        exact ⟨rfl, rfl⟩
      obtain ⟨rest, hrest⟩ : ∃ rest, groupedDesc (expenseRows t) = p :: rest := by
        cases hg : groupedDesc (expenseRows t) with
        | nil =>
          rw [hg] at hp
          exact absurd hp (by simp)
        | cons a rest =>
          rw [hg] at hp
          simp only [List.head?_cons, Option.some.injEq] at hp
          exact ⟨rest, by rw [hp]⟩
      have hmem : p ∈ (categoriesOf (expenseRows t)).map
          (fun c => (c, catSum (expenseRows t) c)) := by
        have : p ∈ groupedDesc (expenseRows t) := by
          rw [hrest]
          exact List.mem_cons_self p rest
        exact mem_sortDescBySum.mp this
      obtain ⟨c, hcmem, hcp⟩ := List.mem_map.mp hmem
      refine ⟨c, ?_, ?_, ?_⟩
      · rw [htop.1, show c = p.1 from by rw [← hcp]]
      · rw [htop.2, show catSum (expenseRows t) c = p.2 from by rw [← hcp]]
      · intro d hd
        have hdm : (d, catSum (expenseRows t) d) ∈ (categoriesOf (expenseRows t)).map
            (fun c => (c, catSum (expenseRows t) c)) :=
          List.mem_map_of_mem _ hd
        have hle := head_max_sortDescBySum (l := (categoriesOf (expenseRows t)).map
          (fun c => (c, catSum (expenseRows t) c))) hrest hdm
        rw [show catSum (expenseRows t) c = p.2 from by rw [← hcp]]
        exact hle

theorem C4_top_category_amended_witness :
    expenseRows [⟨"2024-01", "Food", (0 : Rat), "expense"⟩] ≠ [] ∧
    ∃ c, (homeSummary [⟨"2024-01", "Food", (0 : Rat), "expense"⟩]).top_category = some c ∧
      (homeSummary [⟨"2024-01", "Food", (0 : Rat), "expense"⟩]).top_value =
        catSum (expenseRows [⟨"2024-01", "Food", (0 : Rat), "expense"⟩]) c ∧
      ∀ d ∈ categoriesOf (expenseRows [⟨"2024-01", "Food", (0 : Rat), "expense"⟩]),
        catSum (expenseRows [⟨"2024-01", "Food", (0 : Rat), "expense"⟩]) d ≤
          catSum (expenseRows [⟨"2024-01", "Food", (0 : Rat), "expense"⟩]) c :=
  ⟨by decide, (C4_top_category_amended _).2 (by decide)⟩

/-! ## Claim C5: the investment series -/

theorem keyed_filter_month (t : List Row) (m : String) :
    ((investmentKeyed t).filter fun p => p.1 == m).map Prod.snd =
      (t.filter fun r => isInvestCat r.category && (monthKey r.date == some m)).map
        Row.amount := by
  induction t with
  | nil => rfl
  | cons r t ih =>
    by_cases hc : isInvestCat r.category
    · cases hk : monthKey r.date with
      | none =>
        simp only [investmentKeyed, investmentRows, List.filter_cons, hc, if_true,
          List.filterMap_cons, hk, Option.map_none'] at *
        simp [hk, ih]
      | some m2 =>
        by_cases hm : m2 = m
        · subst hm
          simp only [investmentKeyed, investmentRows, List.filter_cons, hc, if_true,
            List.filterMap_cons, hk, Option.map_some'] at *
          simp [List.filter_cons, hk, ih]
        · simp only [investmentKeyed, investmentRows, List.filter_cons, hc, if_true,
            List.filterMap_cons, hk, Option.map_some'] at *
          simp [List.filter_cons, hk, hm, ih]
    · simp only [investmentKeyed, investmentRows, List.filter_cons, hc] at *
      simp [hc, ih]

theorem mem_insertAsc {s x : String} {l : List String} :
    x ∈ insertAsc s l ↔ x = s ∨ x ∈ l := by
  induction l with
  | nil => simp [insertAsc]
  | cons q t ih =>
    unfold insertAsc
    by_cases h : strLe s q = true
    · simp [h]
    · simp only [h, Bool.false_eq_true, if_false, List.mem_cons, ih]
      tauto

theorem mem_sortAsc {x : String} {l : List String} : x ∈ sortAsc l ↔ x ∈ l := by
  induction l with
  | nil => simp [sortAsc]
  | cons a t ih =>
    simp only [sortAsc, List.foldr_cons, List.mem_cons]
    rw [mem_insertAsc]
    simp only [sortAsc] at ih
    rw [ih]

/-- C5: `investment_series` selects exactly the rows whose Category
case-insensitively contains one of invest/sip/mf/fund/stock, drops selected
rows whose Date does not parse as a calendar date, and sums Amount per
YYYY-MM bucket: every (month, total) pair of the series totals exactly the
amounts of the selected rows in that bucket, every selected, date-valid row
contributes a bucket, and on the two-row example table only the SIP-Fund row
is included, in bucket "2024-03" with total 200. -/
theorem C5_investment_series :
    (∀ (t : List Row) (r : Row), r ∈ investmentRows t ↔
      r ∈ t ∧ isInvestCat r.category = true) ∧
    (∀ (t : List Row) (m : String) (q : Rat), (m, q) ∈ investment_series t →
      q = sumAmounts (t.filter fun r =>
        isInvestCat r.category && (monthKey r.date == some m))) ∧
    (∀ (t : List Row) (r : Row), r ∈ t → isInvestCat r.category = true →
      ∀ m, monthKey r.date = some m → ∃ q, (m, q) ∈ investment_series t) ∧
    investment_series [⟨"2024-03", "SIP-Fund", 200, "investment"⟩,
        ⟨"2024-03", "Food", 50, "expense"⟩] = [("2024-03", 200)] := by
  refine ⟨?_, ?_, ?_, ?_⟩
  · intro t r
    simp [investmentRows, List.mem_filter]
  · intro t m q hmem
    unfold investment_series at hmem
    obtain ⟨m2, _, hpair⟩ := List.mem_map.mp hmem
    have hm2 : m2 = m := congrArg Prod.fst hpair
    subst hm2
    have hq : sumRat (((investmentKeyed t).filter fun p => p.1 == m2).map Prod.snd) = q :=
      congrArg Prod.snd hpair
    rw [← hq, keyed_filter_month]
    rfl
  · intro t r hr hc m hm
    have hkey : (m, r.amount) ∈ investmentKeyed t := by
      unfold investmentKeyed
      rw [List.mem_filterMap]
      refine ⟨r, ?_, ?_⟩
      · unfold investmentRows
        rw [List.mem_filter]
        exact ⟨hr, hc⟩
      · rw [hm]
        rfl
    have hmonth : m ∈ sortAsc ((investmentKeyed t).map Prod.fst).dedup := by
      rw [mem_sortAsc, List.mem_dedup]
      exact List.mem_map_of_mem Prod.fst hkey
    exact ⟨_, List.mem_map_of_mem _ hmonth⟩
  · have hkeys : sortAsc ((investmentKeyed [⟨"2024-03", "SIP-Fund", 200, "investment"⟩,
        ⟨"2024-03", "Food", 50, "expense"⟩]).map Prod.fst).dedup = ["2024-03"] := by decide
    have hflt : ((investmentKeyed [⟨"2024-03", "SIP-Fund", 200, "investment"⟩,
        ⟨"2024-03", "Food", 50, "expense"⟩]).filter
          fun p => p.1 == "2024-03").map Prod.snd = [200] := by decide
    unfold investment_series
    rw [hkeys, List.map_cons, List.map_nil, hflt]
    norm_num [sumRat]

theorem C5_investment_series_witness :
    ((200 : Rat) = sumAmounts ([⟨"2024-03", "SIP-Fund", 200, "investment"⟩,
        ⟨"2024-03", "Food", 50, "expense"⟩].filter fun r =>
          isInvestCat r.category && (monthKey r.date == some "2024-03"))) ∧
    (∃ q, ("2024-03", q) ∈ investment_series [⟨"2024-03", "SIP-Fund", 200, "investment"⟩,
        ⟨"2024-03", "Food", 50, "expense"⟩]) :=
  ⟨C5_investment_series.2.1 _ _ _ (by
      rw [C5_investment_series.2.2.2]
      exact List.mem_cons_self _ _),
    C5_investment_series.2.2.1 _ ⟨"2024-03", "SIP-Fund", 200, "investment"⟩
      (List.mem_cons_self _ _) (by decide) _ (by decide)⟩

end FinTrack
